import Mathlib

/-!
Verification of the Zotero Word JS integration session engine
(`src/commands/session.js`), as a shallow embedding in Lean.

JavaScript strings are modelled as `String` / `List Char`; JS numbers that
can go negative (interval bounds, splice indices) are modelled as `Int`
with `Int.fdiv` for `Math.floor(x/2)`; asynchronous position comparisons
(`compareLocationWith`) are modelled as oracle functions from indices to
result strings, exactly as the code consumes them positionally after a
flush. Fallible paths (out-of-bounds element access on a JS array, whose
`.code` access throws a TypeError) are modelled with `Except`.
-/

namespace WordSession

/-- `FIELD_PREFIX` constant (session.js:32). -/
def FIELD_PREFIX : String := "ADDIN ZOTERO_"

/-- `FIELD_INSERT_CODE` constant (session.js:33). -/
def FIELD_INSERT_CODE : String := "TEMP"

/-- `FIELD_PLACEHOLDER` constant (session.js:34). -/
def FIELD_PLACEHOLDER : String := "\x7bUpdating\x7d"

/-- `PREF_PREFIX` constant (session.js:35). -/
def PREF_PREFIX : String := "ZOTERO_PREF"

/-- `PREF_LENGTH` constant (session.js:36). -/
def PREF_LENGTH : Nat := 255

/-- `EXPORT_DOCUMENT_MARKER` constant (session.js:42). -/
def EXPORT_DOCUMENT_MARKER : String := "ZOTERO_TRANSFER_DOCUMENT"

/-- JS `String.prototype.startsWith`: the receiver's code units start with
the argument's. Modelled on the underlying character lists. -/
def jsStartsWith (s pre : String) : Bool :=
  pre.data.isPrefixOf s.data

/-- JS `String.prototype.trim`: strip whitespace from both ends, on the
underlying character lists. -/
def jsTrim (s : String) : String :=
  String.mk (((s.data.dropWhile Char.isWhitespace).reverse.dropWhile
    Char.isWhitespace).reverse)

/-- JS `<` on strings: lexicographic comparison of code-unit sequences. -/
def lexLt : List Char → List Char → Bool
  | [], [] => false
  | [], _ :: _ => true
  | _ :: _, [] => false
  | a :: as, b :: bs => if a < b then true else if b < a then false else lexLt as bs

/-- JS `Array.prototype.splice(idx, 0, x)`: insert `x` at `idx`, where a
negative `idx` counts from the end and an `idx` past the end clamps to the
end. -/
def spliceInsert {α : Type} (l : List α) (idx : Int) (x : α) : List α :=
  let n : Nat := if idx < 0 then (max ((l.length : Int) + idx) 0).toNat
                 else min idx.toNat l.length
  l.take n ++ x :: l.drop n

/-- JS `Array.prototype.splice(idx, 1)`: remove one element at `idx`, with
JS index clamping (negative counts from the end). -/
def spliceRemoveOne {α : Type} (l : List α) (idx : Int) : List α :=
  let n : Nat := if idx < 0 then (max ((l.length : Int) + idx) 0).toNat
                 else min idx.toNat l.length
  l.take n ++ l.drop (n + 1)

/-! ## Ordering Reconciler: `_sortNotesIntoFields` (session.js:773-816) -/

/-- The per-note search interval `{lower, upper}` of `_sortNotesIntoFields`
(session.js:777). The bounds are JS numbers and the code can drive `upper`
below `lower`, so both are integers. -/
structure NoteSort where
  lower : Int
  upper : Int
deriving Repr, DecidableEq

/-- Failure modes of the embedded sort loop: `crash` models the JS
TypeError thrown by `fields[compIdx].code` when `compIdx` is out of
bounds (so `fields[compIdx]` is `undefined`); `fuelOut` only signals that
the supplied fuel bound was reached without the loop finishing. -/
inductive SortFail
  | crash
  | fuelOut
deriving Repr, DecidableEq

/-- The interval-narrowing step at the top of each round
(session.js:780-787): with `diff = upper - lower`, an `"After"` comparison
sets `lower := lower + ⌊diff/2⌋ + (diff == 1 ? 1 : 0)` and anything else
sets `upper := lower + ⌊diff/2⌋ - (diff == 1 ? 1 : 0)`. -/
def narrowInterval (ns : NoteSort) (v : String) : NoteSort :=
  let diff := ns.upper - ns.lower
  if v = "After" then
    { ns with lower := ns.lower + Int.fdiv diff 2 + (if diff = 1 then 1 else 0) }
  else
    { ns with upper := ns.lower + Int.fdiv diff 2 - (if diff = 1 then 1 else 0) }

/-- The narrowing step as the claim/spec words it: pivot
`mid = lower + ⌊(upper-lower)/2⌋`; `"After"` narrows to `[mid+1, upper)`,
anything else to `[lower, mid)`, with an off-by-one adjustment only when
the interval length is exactly 1. Written from the spec's words, for
comparison against `narrowInterval` (which is written from the source). -/
def claimNarrow (ns : NoteSort) (v : String) : NoteSort :=
  let mid := ns.lower + Int.fdiv (ns.upper - ns.lower) 2
  if ns.upper - ns.lower = 1 then
    if v = "After" then ⟨mid + 1, ns.upper⟩ else ⟨ns.lower, mid - 1⟩
  else
    if v = "After" then ⟨mid + 1, ns.upper⟩ else ⟨ns.lower, mid⟩

/-- One note's processing inside a round of `_sortNotesIntoFields`
(session.js:779-804): narrow using the previous comparison value if there
is one, skip if collapsed, otherwise pick `compIdx` and either resolve as
`"Before"` (when `compIdx >= fields.length`), crash (when `compIdx` is
negative: `fields[compIdx]` is `undefined` in JS and the subsequent
`.code` access throws), or queue a comparison whose value the oracle
`cmp i compIdx` supplies after the round's flush. -/
def noteStep (numFields : Nat) (cmp : Nat → Int → String) (i : Nat)
    (cv : Option String) (ns : NoteSort) : Except Unit (Option String × NoteSort) :=
  let ns' := match cv with
    | some v => narrowInterval ns v
    | none => ns
  if ns'.lower = ns'.upper then .ok (cv, ns')
  else
    let compIdx := ns'.lower + Int.fdiv (ns'.upper - ns'.lower) 2
    if (numFields : Int) ≤ compIdx then .ok (some "Before", ns')
    else if compIdx < 0 then .error ()
    else .ok (some (cmp i compIdx), ns')

/-- One full round (the `for` loop of session.js:779-804) over every
note's `(compareValues[i], noteSort[i])` pair, with `i` the index of the
first listed note. -/
def sortRound (numFields : Nat) (cmp : Nat → Int → String) :
    Nat → List (Option String × NoteSort) → Except Unit (List (Option String × NoteSort))
  | _, [] => .ok []
  | i, p :: rest => do
    let p' ← noteStep numFields cmp i p.1 p.2
    let rest' ← sortRound numFields cmp (i + 1) rest
    .ok (p' :: rest')

/-- The `while (true)` loop of session.js:778-808: run a round; if every
interval has collapsed (`lower == upper`) stop, otherwise flush
(`await this._sync()`, counted) and continue. `fuel` bounds the number of
rounds so the definition is total; exhausting it yields `.fuelOut`. -/
def sortLoop (numFields : Nat) (cmp : Nat → Int → String) :
    Nat → List (Option String × NoteSort) → Nat → Except SortFail (List NoteSort × Nat)
  | 0, _, _ => .error .fuelOut
  | fuel + 1, st, flushes =>
    match sortRound numFields cmp 0 st with
    | .error _ => .error .crash
    | .ok st' =>
      if st'.all (fun p => p.2.lower = p.2.upper) then
        .ok (st'.map Prod.snd, flushes)
      else
        sortLoop numFields cmp fuel st' (flushes + 1)

/-- The final merge of `_sortNotesIntoFields` (session.js:809-815):
`notes.reverse(); noteSort.reverse();` then splice each note into the
field list at its `lower`. Reversing the two parallel arrays and pairing
positionally equals reversing their zip, which is what is folded here. -/
def mergeNotes {α : Type} (fields : List α) (pairs : List (α × NoteSort)) : List α :=
  (pairs.reverse).foldl (fun acc p => spliceInsert acc p.2.lower p.1) fields

/-- `_sortNotesIntoFields(fields, notes)` (session.js:773-816). An empty
field list returns the notes at once with no flush (session.js:774).
Otherwise every note starts at `{lower: 0, upper: fields.length}` with
`compareValues[i] = {value: false}` (modelled `none`), the round loop
runs, and on success the notes are merged in. The result carries the
number of flushes the loop performed. The comparison oracle `cmp i j`
gives the flushed value of `notes[i].reference.compareLocationWith(...)`
against the entry at index `j` of `fields`. -/
def sortNotesIntoFields {α : Type} (fields notes : List α)
    (cmp : Nat → Int → String) (fuel : Nat) : Except SortFail (List α × Nat) :=
  if fields.length = 0 then .ok (notes, 0)
  else
    match sortLoop fields.length cmp fuel
        (notes.map (fun _ => (none, ⟨0, (fields.length : Int)⟩))) 0 with
    | .error e => .error e
    | .ok (noteSort, flushes) => .ok (mergeNotes fields (notes.zip noteSort), flushes)

/-- Reference interleaving for the merge phase: each `(note, k)` pair goes
directly before the field that currently sits at index `k`, notes with
equal `k` staying in the order given. The original fields keep their
relative order by construction. -/
def insertAllAt {α : Type} (fields : List α) : List (α × Nat) → List α
  | [] => fields
  | (n, k) :: rest =>
    fields.take k ++ n :: insertAllAt (fields.drop k) (rest.map (fun q => (q.1, q.2 - k)))
termination_by l => l.length
decreasing_by simp

/-- Stable insertion (descending by resolved `lower`) used to express the
claim's "sort notes by resolved insertion index descending" merge. -/
def insertDescByLower {α : Type} (p : α × NoteSort) :
    List (α × NoteSort) → List (α × NoteSort)
  | [] => [p]
  | q :: t => if p.2.lower > q.2.lower then p :: q :: t else q :: insertDescByLower p t

/-- The merge as the claim words it: process the notes in descending
order of resolved insertion index (stable), splicing each at its index.
Written from the spec's words, for comparison against `mergeNotes`. -/
def claimDescMerge {α : Type} (fields : List α) (pairs : List (α × NoteSort)) : List α :=
  (pairs.foldr insertDescByLower []).foldl (fun acc p => spliceInsert acc p.2.lower p.1) fields

/-! ## Field Model (`getFields`, session.js:269-369, and `_wordFieldToField`) -/

/-- A session `Field` record as built by `_wordFieldToField`
(session.js:818-833): locally generated `id`, `code` stripped of
`FIELD_PREFIX`, `noteType`, rendered `text`, and the `adjacent` flag set
by the adjacency pass of `getFields` (session.js:357-366). The underlying
Word proxy references (`wordField`, `wordNote`) are remote handles whose
only observable use in the claims is through the comparison oracles, so
they are not carried. -/
structure ZField where
  id : Nat
  code : String
  noteType : Nat
  text : String
  adjacent : Bool
deriving Repr, DecidableEq

/-- A `ZField` with its `id` forgotten, to state that reconciliation
changes nothing but ids. -/
def ZField.dropId (f : ZField) : String × Nat × String × Bool :=
  (f.code, f.noteType, f.text, f.adjacent)

/-- Session-level failures surfaced by the embedded operations. -/
inductive SessErr
  | sortCrash
  | sortFuelOut
  | orphanNotFound
deriving Repr, DecidableEq

/-- Replace the element at position `i` (no-op when out of range). -/
def modifyIdx {α : Type} (f : α → α) : Nat → List α → List α
  | _, [] => []
  | 0, x :: t => f x :: t
  | n + 1, x :: t => x :: modifyIdx f n t

/-- `comparison.findIndex(c => c.value === "Equal")` for orphan `oIdx`
against the cached field list (session.js:285): index of the first cached
field whose flushed comparison with the orphan is `"Equal"`. -/
def findEqualIdx (numFields : Nat) (cmp : Nat → Nat → String) (oIdx : Nat) : Option Nat :=
  (List.range numFields).find? (fun f => cmp oIdx f = "Equal")

/-- The orphan loop of session.js:284-296, processing orphans in order
starting at absolute orphan index `oIdx`: no `"Equal"` match throws
(`'Orphan Field not found when retrieving all fields'`); on a match the
matched cached field adopts the orphan's `id` in place. -/
def reconcileGo (cmp : Nat → Nat → String) :
    Nat → List ZField → List ZField → Except SessErr (List ZField)
  | _, fields, [] => .ok fields
  | oIdx, fields, o :: rest =>
    match findEqualIdx fields.length cmp oIdx with
    | none => .error .orphanNotFound
    | some fIdx =>
      reconcileGo cmp (oIdx + 1) (modifyIdx (fun f => { f with id := o.id }) fIdx fields) rest

/-- Orphan reconciliation of `getFields` (session.js:276-298): all
orphan-versus-cached-field comparisons are queued and resolved in one
flush (the oracle `cmp oIdx fIdx`), then each orphan adopts by first
`"Equal"` match. With no orphans the block is skipped. The bookkeeping on
`fieldsById` (session.js:293-295) mutates an id-keyed index onto the same
records and is not carried here. -/
def reconcileOrphans (fields orphans : List ZField) (cmp : Nat → Nat → String) :
    Except SessErr (List ZField) :=
  reconcileGo cmp 0 fields orphans

/-- A Word field proxy as loaded by `getFields` (`code` plus rendered
result text). -/
structure RawField where
  code : String
  text : String
deriving Repr, DecidableEq

/-- A footnote/endnote container with its own loaded field list and the
note type its body maps to (`BODY_TYPE_TO_NOTE_TYPE`, 1 = footnote,
2 = endnote). -/
structure RawNote where
  noteType : Nat
  noteFields : List RawField
deriving Repr, DecidableEq

/-- An entry of the heterogeneous array `_sortNotesIntoFields` works on:
an inline Word field (has a `code`) or a note container (no `code`). -/
inductive FEntry
  | field (f : RawField)
  | note (n : RawNote)
deriving Repr, DecidableEq

/-- The document as `getFields` observes it through flushes: the inline
addin fields, footnote and endnote containers, and the comparison oracles
for the two `_sortNotesIntoFields` passes (note index × entry index) and
for the adjacency pass (consecutive pair index). -/
structure Doc where
  inlineFields : List RawField
  footnotes : List RawNote
  endnotes : List RawNote
  cmpFoot : Nat → Int → String
  cmpEnd : Nat → Int → String
  adjacencyCmp : Nat → String

/-- Whether a raw field's trimmed code carries the Zotero marker
(`field.code.trim().startsWith(FIELD_PREFIX)`, session.js:325/332/338). -/
def hasZoteroCode (f : RawField) : Bool :=
  jsStartsWith (jsTrim f.code) FIELD_PREFIX

/-- Steps (a)-(c) of the `getFields` rebuild (session.js:306-334): filter
inline fields by marker, keep only notes that contain at least one marked
field, then run the Ordering Reconciler once for footnotes and once for
endnotes over the growing entry list. -/
def buildEntries (doc : Doc) (fuel : Nat) : Except SessErr (List FEntry) :=
  let fields := (doc.inlineFields.filter hasZoteroCode).map FEntry.field
  let footnotes := (doc.footnotes.filter (fun n => n.noteFields.any hasZoteroCode)).map FEntry.note
  let endnotes := (doc.endnotes.filter (fun n => n.noteFields.any hasZoteroCode)).map FEntry.note
  match sortNotesIntoFields fields footnotes doc.cmpFoot fuel with
  | .error .crash => .error .sortCrash
  | .error .fuelOut => .error .sortFuelOut
  | .ok (merged1, _) =>
    match sortNotesIntoFields merged1 endnotes doc.cmpEnd fuel with
    | .error .crash => .error .sortCrash
    | .error .fuelOut => .error .sortFuelOut
    | .ok (merged2, _) => .ok merged2

/-- `_wordFieldToField` (session.js:818-833) minus proxy bookkeeping:
build the session Field record with the next locally generated id and the
code stripped of `FIELD_PREFIX` after trimming. `adjacent` starts unset
(modelled `false`) until the adjacency pass. -/
def wordFieldToField (nextId : Nat) (f : RawField) (noteType : Nat) : ZField :=
  ⟨nextId, String.mk ((jsTrim f.code).data.drop FIELD_PREFIX.length), noteType, f.text, false⟩

/-- `getZoteroFieldsFromWordFields` applied to a note entry
(session.js:344-349): walk the note's own fields, keeping marked ones
with the note's type. Returns the built fields and the advanced id
counter. -/
def flattenNoteFields (c : Nat) (noteType : Nat) : List RawField → List ZField × Nat
  | [] => ([], c)
  | f :: rest =>
    if hasZoteroCode f then
      let (zs, c') := flattenNoteFields (c + 1) noteType rest
      (wordFieldToField c f noteType :: zs, c')
    else flattenNoteFields c noteType rest

/-- The `getZoteroFieldsFromWordFields` fold of session.js:336-355 over
the merged entry list: an inline field contributes itself when marked, a
note contributes its marked fields. -/
def flattenEntries (c : Nat) : List FEntry → List ZField × Nat
  | [] => ([], c)
  | .field f :: rest =>
    if hasZoteroCode f then
      let (zs, c') := flattenEntries (c + 1) rest
      (wordFieldToField c f 0 :: zs, c')
    else flattenEntries c rest
  | .note n :: rest =>
    let (zs1, c') := flattenNoteFields c n.noteType n.noteFields
    let (zs2, c'') := flattenEntries c' rest
    (zs1 ++ zs2, c'')

/-- The adjacency pass (session.js:357-366): one comparison per
consecutive pair, batched into one flush; each field except the last gets
`adjacent := (value === "AdjacentBefore")`, the last keeps the
`{value: false}` initialisation. -/
def markAdjacency (doc : Doc) (zs : List ZField) : List ZField :=
  zs.mapIdx (fun i f =>
    { f with adjacent := if i + 1 < zs.length then doc.adjacencyCmp i = "AdjacentBefore" else false })

/-- The session state the Field Model claims observe: the cached field
list (`this.fields`, `none` when unset), the pending orphans
(`this.orphanFields`), and the local id counter standing in for
`randomString()` (session.js:857-870), which generates a fresh id per
built field. -/
structure SessState where
  fields : Option (List ZField)
  orphans : List ZField
  nextId : Nat
deriving Repr, DecidableEq

/-- The cached-list path of `getFields` (session.js:270-305): reconcile
any pending orphans against the cache in one flush, clear the orphan
list, and return the (possibly id-rewritten) cached list. -/
def getFieldsCachedPath (cached : List ZField) (s : SessState)
    (cmpOrphan : Nat → Nat → String) : Except SessErr (SessState × List ZField) :=
  match reconcileOrphans cached s.orphans cmpOrphan with
  | .error e => .error e
  | .ok cached' => .ok ({ s with fields := some cached', orphans := [] }, cached')

/-- `getFields` (session.js:269-369): with a cache, take the cached path;
otherwise rebuild (entries, flatten with fresh ids, adjacency), store the
cache and re-enter through the tail call `return this.getFields()`
(session.js:368), which lands in the cached path. -/
def getFields (doc : Doc) (cmpOrphan : Nat → Nat → String) (fuel : Nat)
    (s : SessState) : Except SessErr (SessState × List ZField) :=
  match s.fields with
  | some cached => getFieldsCachedPath cached s cmpOrphan
  | none =>
    match buildEntries doc fuel with
    | .error e => .error e
    | .ok entries =>
      let built := flattenEntries s.nextId entries
      let zs := markAdjacency doc built.1
      getFieldsCachedPath zs { s with fields := some zs, nextId := built.2 } cmpOrphan

/-! ## Cache effects of the structural mutation operations (C5) -/

/-- `this.fields.indexOf(field)` where `field = this.fieldsById[fieldID]`:
index of the cached entry with that id, `-1` when absent (the ids in the
cache are unique per session). -/
def jsIndexOfById (l : List ZField) (fid : Nat) : Int :=
  match l.findIdx? (fun f => f.id = fid) with
  | some i => (i : Int)
  | none => -1

/-- The cache effect of `delete(fieldID)` (session.js:747-751): when a
cache exists, `this.fields.splice(this.fields.indexOf(field), 1)` removes
the entry in place (with JS splice semantics when `indexOf` gives `-1`);
the cache is not discarded. Document-side effects (text/note removal,
session.js:727-746) do not touch the cache. -/
def deleteCacheEffect (s : SessState) (fieldID : Nat) : SessState :=
  { s with fields := s.fields.map (fun l => spliceRemoveOne l (jsIndexOfById l fieldID)) }

/-- The cache effect of `insertField` (session.js:461-497): the freshly
inserted field becomes an orphan via `_wordFieldToField(..., true)`
(session.js:496, 828-830) with code `FIELD_INSERT_CODE` and placeholder
text; `this.fields` is left untouched. -/
def insertFieldCacheEffect (s : SessState) (noteType : Nat) : SessState × ZField :=
  let zf : ZField := ⟨s.nextId, FIELD_INSERT_CODE, noteType, FIELD_PLACEHOLDER, false⟩
  ({ s with orphans := s.orphans ++ [zf], nextId := s.nextId + 1 }, zf)

/-- The cache effect of `convert` (session.js:537-550) after its initial
`getFields()` call (so a cache is present): an empty field list returns
early (session.js:539) leaving the cache; otherwise `this.fields = null`
(session.js:549). -/
def convertCacheEffect (s : SessState) : SessState :=
  match s.fields with
  | some l => if l.length = 0 then s else { s with fields := none }
  | none => s

/-- The cache effect of `convertPlaceholdersToFields` (session.js:521-535):
each converted placeholder runs `insertField` (session.js:531), adding an
orphan, and at the end `this.fields = null` (session.js:533). `count` is
the number of placeholders converted. -/
def convertPlaceholdersCacheEffect (s : SessState) (noteType : Nat) : Nat → SessState
  | 0 => { s with fields := none }
  | n + 1 => convertPlaceholdersCacheEffect (insertFieldCacheEffect s noteType).1 noteType n

/-! ## `execCommand` transaction boundary (C4) -/

/-- Observable events of one `execCommand` run (session.js:64-90). -/
inductive SessEvent
  | httpPost
  | dispatch
  | alert
  | debugLog
  | completed
  | untrack
  | finalSync
deriving Repr, DecidableEq

/-- How the guarded body of `execCommand` ends: the request/dispatch
succeeded, or the catch saw status 503 (debug log), status 0 (alert), or
any other error (logError). -/
inductive ExecOutcome
  | success
  | err503
  | err0
  | errOther
deriving Repr, DecidableEq

/-- `_untrackAll` (session.js:175-179): nothing when no objects are
tracked, otherwise one `trackedObjects.remove` of the whole list followed
by one final `context.sync()`. -/
def untrackAllTrace (trackedCount : Nat) : List SessEvent :=
  if trackedCount = 0 then [] else [.untrack, .finalSync]

/-- The event trace of one `execCommand(command)` run (session.js:64-90):
the try body (POST then dispatch on success, POST then the matching catch
branch otherwise), then the `finally` block, which runs
`this.event.completed()` first and `await this._untrackAll()` second
(session.js:86-89). -/
def execCommandTrace (o : ExecOutcome) (trackedCount : Nat) : List SessEvent :=
  (match o with
   | .success => [.httpPost, .dispatch]
   | .err503 => [.httpPost, .debugLog]
   | .err0 => [.httpPost, .alert]
   | .errOther => [.httpPost, .debugLog])
  ++ SessEvent.completed :: untrackAllTrace trackedCount

/-! ## `callFunction` dispatch (C9) -/

/-- The operations `callFunction` can dispatch to: the methods defined on
`Zotero.Session` (session.js:49-855). `this[method]` resolves exactly
these names (inherited `Object.prototype` members aside, which no
integration command name collides with). -/
def sessionMethods : List String :=
  ["execCommand", "respond", "callFunction", "_track", "_untrackAll",
   "getDocument", "getActiveDocument", "getDocumentData", "setDocumentData",
   "activate", "cleanup", "complete", "displayAlert", "getFields",
   "setBibliographyStyle", "canInsertField", "cursorInField", "insertField",
   "insertText", "convertPlaceholdersToFields", "convert", "inlineToNotes",
   "notesToInline", "importDocument", "exportDocument", "setText", "setCode",
   "delete", "removeCode", "select", "_sync", "_sortNotesIntoFields",
   "_wordFieldToField", "_getNoteFromBody"]

/-- JS `String.prototype.split('.')` on the underlying character list:
cut at every `'.'`, keeping empty pieces. -/
def splitCharsOnDot : List Char → List (List Char)
  | [] => [[]]
  | c :: rest =>
    let r := splitCharsOnDot rest
    if c = '.' then [] :: r
    else
      match r with
      | [] => [[c]]
      | h :: t => (c :: h) :: t

/-- JS `command.split('.')` (session.js:116). -/
def jsSplitDot (s : String) : List String :=
  (splitCharsOnDot s.data).map String.mk

/-- A JS exception as the catch of `callFunction` reads it: an optional
`type` tag and a message. Runtime faults such as the TypeError from
`this[method].apply` when `this[method]` is `undefined` have no `type`. -/
structure JsError where
  type : Option String
  message : String
deriving Repr, DecidableEq

/-- What one `callFunction` dispatch produces: the operation's result, or
the structured error payload built in the catch (session.js:136-152) with
kind `e.type || 'Connector Error'`. -/
inductive CallResult
  | value (v : Option String)
  | errorPayload (kind message : String)
deriving Repr, DecidableEq

/-- The error kind of a `CallResult`, `none` for a plain result. -/
def CallResult.kind : CallResult → Option String
  | .value _ => none
  | .errorPayload k _ => some k

/-- `callFunction(request)` (session.js:115-157): take
`request.command.split('.')[1]`, run `this[method].apply(this, args)`
inside the try. A `method` that is not a `Zotero.Session` member (or a
command with no `'.'` part) makes `this[method]` `undefined`, so `.apply`
throws a TypeError that the catch converts into the generic payload; a
known method's own failure is converted the same way using its
`e.type`. -/
def callFunctionResult (command : String)
    (dispatch : String → Except JsError (Option String)) : CallResult :=
  match (jsSplitDot command).get? 1 with
  | none => .errorPayload "Connector Error" "this[method] is undefined"
  | some m =>
    if sessionMethods.contains m then
      match dispatch m with
      | .ok v => .value v
      | .error e => .errorPayload (e.type.getD "Connector Error") e.message
    else .errorPayload "Connector Error" "this[method] is undefined"

/-! ## Document data (`getDocumentData`/`setDocumentData`, C10) -/

/-- The document surface the data operations touch: the text of the first
text range of the body (`none` when the body has no ranges) and the
custom properties in insertion order. Property values are JS strings,
kept as character lists. -/
structure DocProps where
  firstTextRange : Option (List Char)
  props : List (String × List Char)
deriving DecidableEq

/-- The property-writing loop of `setDocumentData` (session.js:222-226):
while `data` is nonempty, add `` `${PREF_PREFIX}_${i}` `` with the next
`PREF_LENGTH`-character slice. `fuel` bounds the iteration count; the
caller passes `data.length`, which always suffices since every iteration
consumes at least one character. -/
def setDocumentDataChunks : Nat → List Char → Nat → List (String × List Char)
  | 0, _, _ => []
  | fuel + 1, data, i =>
    if data.isEmpty then []
    else (PREF_PREFIX ++ "_" ++ Nat.repr i, data.take PREF_LENGTH) ::
         setDocumentDataChunks fuel (data.drop PREF_LENGTH) (i + 1)

/-- `setDocumentData(data)` (session.js:220-228): append the numbered
chunk properties to the document's custom properties. -/
def setDocumentData (d : DocProps) (data : List Char) : DocProps :=
  { d with props := d.props ++ setDocumentDataChunks data.length data 1 }

/-- One step of the JS `sort((a, b) => a.key > b.key)` call modelled as
stable insertion: the comparator only ever returns 1 (`a.key > b.key`) or
0, so the engine's insertion sort keeps an element before the pivot
exactly when the pivot's key is not greater. -/
def sortInsertByKey (p : String × List Char) :
    List (String × List Char) → List (String × List Char)
  | [] => [p]
  | q :: t => if lexLt q.1.data p.1.data then q :: sortInsertByKey p t else p :: q :: t

/-- `pref_pieces.sort((a, b) => a.key > b.key)` (session.js:216): stable
ascending sort by key under JS string comparison. -/
def jsSortByKey (l : List (String × List Char)) : List (String × List Char) :=
  l.foldr sortInsertByKey []

/-- `getDocumentData()` (session.js:199-218): if the first text range
starts with `EXPORT_DOCUMENT_MARKER` return the marker; otherwise collect
the custom properties whose key starts with `PREF_PREFIX`, sort them by
key, and join their values. -/
def getDocumentData (d : DocProps) : List Char :=
  match d.firstTextRange with
  | some t =>
    if EXPORT_DOCUMENT_MARKER.data.isPrefixOf t then EXPORT_DOCUMENT_MARKER.data
    else ((jsSortByKey (d.props.filter (fun p => jsStartsWith p.1 PREF_PREFIX))).map
            Prod.snd).flatten
  | none =>
    ((jsSortByKey (d.props.filter (fun p => jsStartsWith p.1 PREF_PREFIX))).map
       Prod.snd).flatten

/-- An all-`"Equal"` orphan comparison oracle: every cached field reports
`"Equal"` against every orphan. -/
def cmpAllEqual : Nat → Nat → String := fun _ _ => "Equal"

/-- An orphan comparison oracle where only cached field 1 matches. -/
def cmpSecondEqual : Nat → Nat → String := fun _ f => if f = 1 then "Equal" else "Before"

/-! # Theorems -/

/-- C1: the claim says the round loop of `_sortNotesIntoFields` always
terminates, performs at most `⌈log2(N+1)⌉` flushes, and exits exactly
when every interval has `lower == upper`. The code contradicts this twice.
First conjunct: with `N = 1` field and one note whose anchor compares
`"Before"` the field, the second round drives the interval to
`{lower: 0, upper: -1}` and reads `fields[-1]`, whose `.code` access
throws in JS — the loop neither terminates normally nor ever collapses
the interval (failing input for the code_bug). Remaining conjuncts: even
on a successful run with `N = 3` and one note resolving between the 2nd
and 3rd fields, the loop flushes 3 times, while `⌈log2(N+1)⌉ =
Nat.clog 2 4 = 2`. -/
theorem c1_sort_loop_crash_and_bound :
    sortNotesIntoFields ["F0"] ["X"] (fun _ _ => "Before") 10 = .error .crash ∧
    sortNotesIntoFields [0, 1, 2] [10] (fun _ j => if j ≤ 1 then "After" else "Before") 20
      = .ok ([0, 1, 10, 2], 3) ∧
    Nat.clog 2 (3 + 1) = 2 ∧
    ¬ 3 ≤ Nat.clog 2 (3 + 1) := by
  refine ⟨rfl, rfl, ?_, ?_⟩
  · rw [show (3 + 1 : ℕ) = 2 ^ 2 by norm_num, Nat.clog_pow]
    norm_num
  · rw [show (3 + 1 : ℕ) = 2 ^ 2 by norm_num, Nat.clog_pow] <;> norm_num

/-- C2 counterexample: with the previous round's interval `[0, 2)` and
result `"After"`, the pivot was `mid = 1` and the code narrows to
`[mid, upper) = [1, 2)`, not to `[mid+1, upper) = [2, 2)` as the claim's
rule prescribes (the claim's off-by-one adjustment only applies at
interval length 1, and here the length is 2). -/
theorem c2_narrow_counterexample :
    narrowInterval ⟨0, 2⟩ "After" = ⟨1, 2⟩ ∧
    claimNarrow ⟨0, 2⟩ "After" = ⟨2, 2⟩ ∧
    narrowInterval ⟨0, 2⟩ "After" ≠ claimNarrow ⟨0, 2⟩ "After" :=
  ⟨rfl, rfl, by decide⟩

/-- C2 amended: with pivot `mid = lower + ⌊(upper-lower)/2⌋`, an
`"After"` result narrows `[lower, upper)` to `[mid, upper)` and any other
result to `[lower, mid)` — except when the interval length is exactly 1,
where `"After"` gives `[mid+1, upper)` and any other result
`[lower, mid-1)` (which can drive `upper` below `lower`). -/
theorem c2_narrow_amended (ns : NoteSort) (v : String) :
    narrowInterval ns v =
      (if v = "After" then
        ⟨ns.lower + Int.fdiv (ns.upper - ns.lower) 2 +
           (if ns.upper - ns.lower = 1 then 1 else 0), ns.upper⟩
       else
        ⟨ns.lower, ns.lower + Int.fdiv (ns.upper - ns.lower) 2 -
           (if ns.upper - ns.lower = 1 then 1 else 0)⟩ : NoteSort) := by
  unfold narrowInterval
  split <;> rfl

/-- C8: with no inline fields, `_sortNotesIntoFields` returns the notes
unchanged (every note resolves to index 0, so reverse-splicing them all
at 0 reproduces their order) with zero flushes; with no notes, it returns
the fields unchanged and in order with zero flushes (one round over zero
notes, which breaks before any sync; `fuel + 1` just states the round
loop is entered once). -/
theorem c8_empty_inputs :
    (∀ (α : Type) (notes : List α) (cmp : Nat → Int → String) (fuel : Nat),
       sortNotesIntoFields [] notes cmp fuel = .ok (notes, 0)) ∧
    (∀ (α : Type) (fields : List α) (cmp : Nat → Int → String) (fuel : Nat),
       sortNotesIntoFields fields [] cmp (fuel + 1) = .ok (fields, 0)) := by
  refine ⟨fun α notes cmp fuel => rfl, fun α fields cmp fuel => ?_⟩
  by_cases h : fields = []
  · subst h; rfl
  · have hlen : fields.length ≠ 0 := by simpa [List.length_eq_zero] using h
    simp [sortNotesIntoFields, hlen, sortLoop, sortRound, mergeNotes]

/-- C4 counterexample: in a run whose operation fails (`errOther`) with
one tracked proxy, the `finally` block of `execCommand`
(session.js:86-89) signals `event.completed()` first and unregisters the
proxies afterwards, so the untrack event does not precede the completion
event as the claim requires. -/
theorem c4_cleanup_order_counterexample :
    execCommandTrace .errOther 1 =
      [.httpPost, .debugLog, .completed, .untrack, .finalSync] ∧
    ¬ (execCommandTrace .errOther 1).indexOf SessEvent.untrack <
        (execCommandTrace .errOther 1).indexOf SessEvent.completed :=
  ⟨rfl, by decide⟩

/-- C4 amended: on every run, whatever the outcome and however many
proxies are tracked, the completion signal fires exactly once, and the
proxy release (one untrack of the whole list plus one final flush, and
only when anything is tracked) happens after — not before — the
completion signal. -/
theorem c4_completed_once_then_cleanup (o : ExecOutcome) (n : Nat) :
    (execCommandTrace o n).count SessEvent.completed = 1 ∧
    (execCommandTrace o n).filter
        (fun e => e == SessEvent.completed || e == SessEvent.untrack) =
      SessEvent.completed :: (if n = 0 then [] else [SessEvent.untrack]) := by
  cases o <;> by_cases h : n = 0 <;>
    simp [execCommandTrace, untrackAllTrace, h]

/-- C9 counterexample: dispatching the unknown command name
`"document.frobnicate"` produces the generic structured payload whose
kind is `'Connector Error'` (from `e.type || 'Connector Error'` on the
TypeError of `this[method].apply`), not a typed `UnknownCommand`
failure. -/
theorem c9_unknown_command_counterexample :
    (callFunctionResult "document.frobnicate" (fun _ => .ok none)).kind
      = some "Connector Error" ∧
    (some "Connector Error" : Option String) ≠ some "UnknownCommand" :=
  ⟨rfl, by decide⟩

/-- C9 amended: a command whose method part does not resolve against the
`Zotero.Session` method table never succeeds and never produces a typed
`UnknownCommand`: the runtime lookup miss is caught and converted into
the generic `'Connector Error'` structured payload. -/
theorem c9_unknown_command_generic (command : String)
    (dispatch : String → Except JsError (Option String)) (m : String)
    (hm : (jsSplitDot command).get? 1 = some m)
    (hnot : sessionMethods.contains m = false) :
    (callFunctionResult command dispatch).kind = some "Connector Error" := by
  simp only [callFunctionResult, hm, hnot, Bool.false_eq_true, if_false, CallResult.kind]

/-- C9 witness: the amended statement applied to the concrete unknown
command `"document.frobnicate"`. -/
theorem c9_unknown_command_generic_witness :
    (callFunctionResult "document.frobnicate" (fun _ => .ok none)).kind
      = some "Connector Error" :=
  c9_unknown_command_generic "document.frobnicate" (fun _ => .ok none)
    "frobnicate" rfl (by decide)

/-- `convertPlaceholdersToFields` always leaves the cache discarded,
whatever state it starts from (helper for C5). -/
theorem convertPlaceholders_discards_cache (noteType count : Nat) :
    ∀ s : SessState, (convertPlaceholdersCacheEffect s noteType count).fields = none := by
  induction count with
  | zero => intro s; rfl
  | succ n ih => intro s; exact ih _

/-- C5 counterexample: with a cached list of two fields, `delete` of the
first field leaves a one-element cache in place (mutated, not
discarded), and `insertField` leaves the cache untouched entirely — so
neither empties the cached list as the claim states for all structural
mutations. -/
theorem c5_cache_counterexample :
    (deleteCacheEffect ⟨some [⟨1, "A", 0, "a", false⟩, ⟨2, "B", 0, "b", false⟩], [], 5⟩ 1).fields
      = some [⟨2, "B", 0, "b", false⟩] ∧
    (deleteCacheEffect ⟨some [⟨1, "A", 0, "a", false⟩, ⟨2, "B", 0, "b", false⟩], [], 5⟩ 1).fields
      ≠ none ∧
    ((insertFieldCacheEffect ⟨some [⟨1, "A", 0, "a", false⟩, ⟨2, "B", 0, "b", false⟩], [], 5⟩ 0).1).fields
      = some [⟨1, "A", 0, "a", false⟩, ⟨2, "B", 0, "b", false⟩] :=
  ⟨by decide, by decide, by decide⟩

/-- C5 amended: only `convert` (on a nonempty field list) and
`convertPlaceholdersToFields` discard the cache; `delete` removes the
deleted entry from the cached list in place via splice, and `insertField`
leaves the cache untouched, registering the new field as an orphan for
later reconciliation instead. -/
theorem c5_cache_invalidation (s : SessState) :
    (∀ l, s.fields = some l → l ≠ [] → (convertCacheEffect s).fields = none) ∧
    (∀ noteType count, (convertPlaceholdersCacheEffect s noteType count).fields = none) ∧
    (∀ fid l, s.fields = some l →
       (deleteCacheEffect s fid).fields = some (spliceRemoveOne l (jsIndexOfById l fid))) ∧
    (∀ noteType, ((insertFieldCacheEffect s noteType).1).fields = s.fields ∧
       ((insertFieldCacheEffect s noteType).1).orphans
         = s.orphans ++ [⟨s.nextId, FIELD_INSERT_CODE, noteType, FIELD_PLACEHOLDER, false⟩]) := by
  refine ⟨?_, fun noteType count => convertPlaceholders_discards_cache noteType count s,
    ?_, fun noteType => ⟨rfl, rfl⟩⟩
  · intro l hl hne
    have hlen : l.length ≠ 0 := by simpa [List.length_eq_zero] using hne
    simp [convertCacheEffect, hl, hlen]
  · intro fid l hl
    simp [deleteCacheEffect, hl]

/-- `modifyIdx` preserves the length of the list. -/
theorem modifyIdx_length {α : Type} (f : α → α) :
    ∀ (n : Nat) (l : List α), (modifyIdx f n l).length = l.length := by
  intro n l
  induction l generalizing n with
  | nil => cases n <;> rfl
  | cons x t ih => cases n with
    | zero => rfl
    | succ m => simpa [modifyIdx] using ih m

/-- `modifyIdx` leaves other positions alone. -/
theorem modifyIdx_get?_ne {α : Type} (f : α → α) :
    ∀ (n j : Nat) (l : List α), n ≠ j → (modifyIdx f n l).get? j = l.get? j := by
  intro n j l
  induction l generalizing n j with
  | nil => intro _; cases n <;> rfl
  | cons x t ih =>
    intro hne
    cases n with
    | zero =>
      cases j with
      | zero => exact absurd rfl hne
      | succ j' => rfl
    | succ m =>
      cases j with
      | zero => rfl
      | succ j' => simpa [modifyIdx] using ih m j' (by omega)

/-- `modifyIdx` applies the function at its own position. -/
theorem modifyIdx_get?_eq {α : Type} (f : α → α) :
    ∀ (n : Nat) (l : List α), (modifyIdx f n l).get? n = (l.get? n).map f := by
  intro n l
  induction l generalizing n with
  | nil => cases n <;> rfl
  | cons x t ih => cases n with
    | zero => rfl
    | succ m => simpa [modifyIdx] using ih m

/-- Rewriting an id at one position changes no id-stripped content. -/
theorem map_dropId_modifyIdx (newId : Nat) :
    ∀ (n : Nat) (l : List ZField),
    (modifyIdx (fun f => { f with id := newId }) n l).map ZField.dropId
      = l.map ZField.dropId := by
  intro n l
  induction l generalizing n with
  | nil => cases n <;> rfl
  | cons x t ih => cases n with
    | zero => simp [modifyIdx, ZField.dropId]
    | succ m => simpa [modifyIdx] using ih m

/-- The orphan loop succeeds exactly when every processed orphan has at
least one `"Equal"` match among the cached fields. -/
theorem reconcileGo_isOk (cmp : Nat → Nat → String) :
    ∀ (os : List ZField) (i : Nat) (fields : List ZField),
    (reconcileGo cmp i fields os).isOk = true ↔
      ∀ k, k < os.length → (findEqualIdx fields.length cmp (i + k)).isSome = true := by
  intro os
  induction os with
  | nil =>
    intro i fields
    simp [reconcileGo, Except.isOk, Except.toBool]
  | cons o rest ih =>
    intro i fields
    cases hf : findEqualIdx fields.length cmp i with
    | none =>
      simp only [reconcileGo, hf, Except.isOk]
      constructor
      · intro hfalse; cases hfalse
      · intro hall
        have h0 := hall 0 (by simp)
        rw [Nat.add_zero, hf] at h0
        cases h0
    | some fIdx =>
      simp only [reconcileGo, hf]
      rw [ih (i + 1) (modifyIdx (fun f => { f with id := o.id }) fIdx fields),
        modifyIdx_length]
      constructor
      · intro hall k hk
        cases k with
        | zero => rw [Nat.add_zero, hf]; rfl
        | succ m =>
          have hm := hall m (by simpa using hk)
          have : i + (m + 1) = i + 1 + m := by omega
          rw [this]; exact hm
      · intro hall k hk
        have hk' : k + 1 < (o :: rest).length := by simpa using hk
        have := hall (k + 1) hk'
        have heq : i + (k + 1) = i + 1 + k := by omega
        rw [heq] at this; exact this

/-- The orphan loop never changes anything but ids. -/
theorem reconcileGo_dropId (cmp : Nat → Nat → String) :
    ∀ (os : List ZField) (i : Nat) (fields res : List ZField),
    reconcileGo cmp i fields os = .ok res →
    res.map ZField.dropId = fields.map ZField.dropId := by
  intro os
  induction os with
  | nil =>
    intro i fields res h
    simp only [reconcileGo, Except.ok.injEq] at h
    rw [← h]
  | cons o rest ih =>
    intro i fields res h
    cases hf : findEqualIdx fields.length cmp i with
    | none => simp only [reconcileGo, hf] at h; exact Except.noConfusion h
    | some fIdx =>
      simp only [reconcileGo, hf] at h
      rw [ih (i + 1) _ res h, map_dropId_modifyIdx]

/-- Positions that are no orphan's first match are untouched by the
orphan loop. -/
theorem reconcileGo_untouched (cmp : Nat → Nat → String) :
    ∀ (os : List ZField) (i : Nat) (fields res : List ZField) (j : Nat),
    reconcileGo cmp i fields os = .ok res →
    (∀ k, k < os.length → findEqualIdx fields.length cmp (i + k) ≠ some j) →
    res.get? j = fields.get? j := by
  intro os
  induction os with
  | nil =>
    intro i fields res j h _
    simp only [reconcileGo, Except.ok.injEq] at h
    rw [← h]
  | cons o rest ih =>
    intro i fields res j h hnot
    cases hf : findEqualIdx fields.length cmp i with
    | none => simp only [reconcileGo, hf] at h; exact Except.noConfusion h
    | some fIdx =>
      simp only [reconcileGo, hf] at h
      have hne : fIdx ≠ j := by
        intro hcontra
        exact hnot 0 (by simp) (by rw [Nat.add_zero, hf, hcontra])
      have hlen := modifyIdx_length (fun f => { f with id := o.id }) fIdx fields
      have hrest : ∀ k, k < rest.length →
          findEqualIdx (modifyIdx (fun f => { f with id := o.id }) fIdx fields).length
            cmp (i + 1 + k) ≠ some j := by
        intro k hk
        rw [hlen]
        have heq : i + 1 + k = i + (k + 1) := by omega
        rw [heq]
        exact hnot (k + 1) (by simpa using hk)
      rw [ih (i + 1) _ res j h hrest]
      exact modifyIdx_get?_ne _ fIdx j _ hne

/-- When the orphans' first matches are pairwise distinct, each matched
cached field ends with the matching orphan's id on top of its original
content. -/
theorem reconcileGo_adopt (cmp : Nat → Nat → String) :
    ∀ (os : List ZField) (i : Nat) (fields res : List ZField),
    reconcileGo cmp i fields os = .ok res →
    (∀ k1 k2, k1 < k2 → k2 < os.length →
       findEqualIdx fields.length cmp (i + k1) ≠ findEqualIdx fields.length cmp (i + k2)) →
    ∀ k, (hk : k < os.length) →
      ∃ fIdx, findEqualIdx fields.length cmp (i + k) = some fIdx ∧
        res.get? fIdx = (fields.get? fIdx).map
          (fun f => { f with id := (os.get ⟨k, hk⟩).id }) := by
  intro os
  induction os with
  | nil => intro i fields res _ _ k hk; exact absurd hk (by simp)
  | cons o rest ih =>
    intro i fields res h hinj k hk
    cases hf : findEqualIdx fields.length cmp i with
    | none => simp only [reconcileGo, hf] at h; exact Except.noConfusion h
    | some f0 =>
      simp only [reconcileGo, hf] at h
      have hlen := modifyIdx_length (fun f => { f with id := o.id }) f0 fields
      cases k with
      | zero =>
        refine ⟨f0, by rw [Nat.add_zero, hf], ?_⟩
        have huntouched : res.get? f0
            = (modifyIdx (fun f => { f with id := o.id }) f0 fields).get? f0 := by
          refine reconcileGo_untouched cmp rest (i + 1) _ res f0 h ?_
          intro m hm
          rw [hlen]
          have heq : i + 1 + m = i + (m + 1) := by omega
          rw [heq]
          intro hcontra
          exact hinj 0 (m + 1) (by omega) (by simpa using hm)
            (by rw [Nat.add_zero, hf, hcontra])
        rw [huntouched, modifyIdx_get?_eq]
        rfl
      | succ k' =>
        have hinj' : ∀ k1 k2, k1 < k2 → k2 < rest.length →
            findEqualIdx (modifyIdx (fun f => { f with id := o.id }) f0 fields).length
              cmp (i + 1 + k1)
              ≠ findEqualIdx (modifyIdx (fun f => { f with id := o.id }) f0 fields).length
                  cmp (i + 1 + k2) := by
          intro k1 k2 h12 hk2
          rw [hlen]
          have e1 : i + 1 + k1 = i + (k1 + 1) := by omega
          have e2 : i + 1 + k2 = i + (k2 + 1) := by omega
          rw [e1, e2]
          exact hinj (k1 + 1) (k2 + 1) (by omega) (by simpa using hk2)
        have hk' : k' < rest.length := by simpa using hk
        obtain ⟨fIdx, hfind, hres⟩ := ih (i + 1) _ res h hinj' k' hk'
        rw [hlen] at hfind
        have heq : i + 1 + k' = i + (k' + 1) := by omega
        rw [heq] at hfind
        refine ⟨fIdx, hfind, ?_⟩
        have hne : f0 ≠ fIdx := by
          intro hcontra
          exact hinj 0 (k' + 1) (by omega) hk
            (by rw [Nat.add_zero, hf, hcontra, hfind])
        rw [hres, modifyIdx_get?_ne _ f0 fIdx _ hne]
        rfl

/-- C3 counterexample: one orphan against two cached fields, with the
oracle reporting `"Equal"` for both comparisons. The claim requires this
run to fail with a reconciliation error (more than one match), but
`getFields` only checks `findIndex` for `-1`: the run succeeds and the
first matching cached field silently adopts the orphan's id. -/
theorem c3_multi_match_counterexample :
    cmpAllEqual 0 0 = "Equal" ∧ cmpAllEqual 0 1 = "Equal" ∧
    reconcileOrphans [⟨1, "A", 0, "a", false⟩, ⟨2, "B", 0, "b", false⟩]
        [⟨99, "A", 0, "a", false⟩] cmpAllEqual
      = .ok [⟨99, "A", 0, "a", false⟩, ⟨2, "B", 0, "b", false⟩] :=
  ⟨rfl, rfl, rfl⟩

/-- C3 amended: orphan reconciliation batches all orphan-versus-cached
comparisons into one flush and then (1) succeeds iff every orphan has at
least one `"Equal"` match — zero matches for any orphan is the only
fatal case, multiple matches are not detected; (2) on success the cached
list keeps its length and all its id-stripped content (the orphan entry
is discarded and no duplicate Field entry is created); (3) when the
orphans' first `"Equal"` matches are pairwise distinct, each first-matched
cached field adopts the corresponding orphan's id, its other attributes
unchanged. -/
theorem c3_orphan_reconciliation (fields orphans : List ZField)
    (cmp : Nat → Nat → String) :
    ((reconcileOrphans fields orphans cmp).isOk = true ↔
       ∀ k, k < orphans.length → (findEqualIdx fields.length cmp k).isSome = true) ∧
    (∀ res, reconcileOrphans fields orphans cmp = .ok res →
       res.map ZField.dropId = fields.map ZField.dropId) ∧
    (∀ res, reconcileOrphans fields orphans cmp = .ok res →
       (∀ k1 k2, k1 < k2 → k2 < orphans.length →
          findEqualIdx fields.length cmp k1 ≠ findEqualIdx fields.length cmp k2) →
       ∀ k, (hk : k < orphans.length) →
         ∃ fIdx, findEqualIdx fields.length cmp k = some fIdx ∧
           res.get? fIdx = (fields.get? fIdx).map
             (fun f => { f with id := (orphans.get ⟨k, hk⟩).id })) := by
  refine ⟨?_, ?_, ?_⟩
  · have h := reconcileGo_isOk cmp orphans 0 fields
    simpa [reconcileOrphans] using h
  · intro res h
    exact reconcileGo_dropId cmp orphans 0 fields res h
  · intro res h hinj k hk
    have h' := reconcileGo_adopt cmp orphans 0 fields res h
      (by intro k1 k2 h12 hk2; simpa using hinj k1 k2 h12 hk2) k hk
    simpa using h'

/-- C3 witness: the amended statement applied to one orphan and two
cached fields where only the second cached field matches: it adopts the
orphan's id 99. -/
theorem c3_orphan_reconciliation_witness :
    ∃ fIdx, findEqualIdx 2 cmpSecondEqual 0 = some fIdx ∧
      ([⟨1, "A", 0, "a", false⟩, ⟨99, "B", 0, "b", false⟩] : List ZField).get? fIdx
        = (([⟨1, "A", 0, "a", false⟩, ⟨2, "B", 0, "b", false⟩] : List ZField).get? fIdx).map
            (fun f => { f with id := 99 }) := by
  have h := (c3_orphan_reconciliation
    [⟨1, "A", 0, "a", false⟩, ⟨2, "B", 0, "b", false⟩]
    [⟨99, "B", 0, "b", false⟩] cmpSecondEqual).2.2
    [⟨1, "A", 0, "a", false⟩, ⟨99, "B", 0, "b", false⟩] rfl
    (by intro k1 k2 h12 hk2; simp at hk2; omega) 0 (by simp)
  simpa using h

/-- Comparison oracle for the C6 counterexample: note 0 anchors between
fields 1 and 2 (it is `"After"` fields 0 and 1, `"Before"` field 2) and
note 1 anchors between fields 0 and 1 — the notes are supplied out of
document order. -/
def cmpC6 : Nat → Int → String := fun i j =>
  if i = 0 then (if j ≤ 1 then "After" else "Before")
  else (if j = 0 then "After" else "Before")

/-- `mergeNotes` processes pairs back to front, splicing one at a time. -/
theorem mergeNotes_cons {α : Type} (fields : List α) (p : α × NoteSort)
    (rest : List (α × NoteSort)) :
    mergeNotes fields (p :: rest) = spliceInsert (mergeNotes fields rest) p.2.lower p.1 := by
  unfold mergeNotes
  rw [List.reverse_cons, List.foldl_append]
  rfl

/-- `spliceInsert` at a nonnegative index is plain take/cons/drop. -/
theorem spliceInsert_nonneg {α : Type} (l : List α) (idx : Int) (x : α) (h : 0 ≤ idx) :
    spliceInsert l idx x = l.take idx.toNat ++ x :: l.drop idx.toNat := by
  unfold spliceInsert
  have hneg : ¬ idx < 0 := by omega
  simp only [hneg, if_false]
  rcases le_or_lt idx.toNat l.length with hle | hlt
  · rw [min_eq_left hle]
  · have hle' : l.length ≤ idx.toNat := Nat.le_of_lt hlt
    rw [min_eq_right hle', List.take_length, List.drop_length,
      List.take_of_length_le hle', List.drop_eq_nil_of_le hle']

/-- Taking exactly the left part of an append. -/
theorem take_append_of_length {α : Type} (A B : List α) (k : Nat) (h : A.length = k) :
    (A ++ B).take k = A := by
  subst h
  exact List.take_left A B

/-- Dropping exactly the left part of an append. -/
theorem drop_append_of_length {α : Type} (A B : List α) (k : Nat) (h : A.length = k) :
    (A ++ B).drop k = B := by
  subst h
  exact List.drop_left A B

/-- `insertAllAt` with every insertion index at least `k` leaves the first
`k` elements alone. -/
theorem insertAllAt_split {α : Type} (fields : List α) (q : List (α × Nat)) (k : Nat)
    (hq : ∀ p ∈ q, k ≤ p.2) :
    insertAllAt fields q
      = fields.take k ++ insertAllAt (fields.drop k) (q.map (fun p => (p.1, p.2 - k))) := by
  cases q with
  | nil => simp [insertAllAt]
  | cons p rest =>
    obtain ⟨n, j⟩ := p
    have hkj : k ≤ j := hq (n, j) (by simp)
    simp only [insertAllAt, List.map_cons, List.map_map]
    have hdd : (fields.drop k).drop (j - k) = fields.drop j := by
      rw [List.drop_drop]
      congr 1
      omega
    have htt : (fields.drop k).take (j - k) = (fields.take j).drop k := by
      rw [List.drop_take]
    have hta : fields.take k ++ (fields.take j).drop k = fields.take j := by
      have hx : fields.take k = (fields.take j).take k := by
        rw [List.take_take, min_eq_left hkj]
      rw [hx, List.take_append_drop]
    have hcomp : ((fun p : α × Nat => (p.1, p.2 - (j - k))) ∘ fun p : α × Nat => (p.1, p.2 - k))
        = fun p : α × Nat => (p.1, p.2 - j) := by
      funext p
      simp only [Function.comp_apply]
      congr 1
      omega
    rw [hdd, htt, hcomp, ← List.append_assoc, hta]

/-- C6 counterexample: fields `[0, 1, 2]` and notes `[10, 11]` whose
resolved insertion indices are 2 and 1 (intervals collapse to `⟨2,2⟩`
and `⟨1,1⟩`). The code splices in reverse input order and returns
`[0, 11, 10, 1, 2]`, while the claim's descending-index processing gives
`[0, 11, 1, 10, 2]`; in the code's output note 10 precedes field 1 even
though the collected comparison `cmpC6 0 1 = "After"` placed it after
field 1, so the final positions do not agree with the pairwise
comparisons. -/
theorem c6_merge_counterexample :
    sortLoop 3 cmpC6 20 [(none, ⟨0, 3⟩), (none, ⟨0, 3⟩)] 0 = .ok ([⟨2, 2⟩, ⟨1, 1⟩], 3) ∧
    sortNotesIntoFields [0, 1, 2] [10, 11] cmpC6 20 = .ok ([0, 11, 10, 1, 2], 3) ∧
    claimDescMerge [0, 1, 2] [((10 : Nat), (⟨2, 2⟩ : NoteSort)), (11, ⟨1, 1⟩)]
      = [0, 11, 1, 10, 2] ∧
    ([0, 11, 10, 1, 2] : List Nat) ≠ [0, 11, 1, 10, 2] ∧
    cmpC6 0 1 = "After" :=
  ⟨rfl, rfl, rfl, by decide, rfl⟩

/-- C6 amended: the final merge splices the notes in reverse input order
at their resolved `lower` indices. When the resolved indices are
non-decreasing in input order (which holds when the notes are supplied in
document order, the situation of `getFields`), this equals placing every
note directly before the field that sat at its resolved index — ties
staying in input order — so the inline fields keep their relative order
and each note's final position has exactly its resolved index many fields
before it, in agreement with the comparisons that produced the index. -/
theorem c6_merge_amended {α : Type} (fields : List α) :
    ∀ pairs : List (α × NoteSort),
    List.Pairwise (fun p q => p.2.lower ≤ q.2.lower) pairs →
    (∀ p ∈ pairs, 0 ≤ p.2.lower ∧ p.2.lower ≤ (fields.length : Int)) →
    mergeNotes fields pairs
      = insertAllAt fields (pairs.map (fun p => (p.1, p.2.lower.toNat))) := by
  intro pairs
  induction pairs generalizing fields with
  | nil => intro _ _; simp [mergeNotes, insertAllAt]
  | cons p rest ih =>
    intro hmono hbound
    have hmono' := (List.pairwise_cons.mp hmono).2
    have hhead := (List.pairwise_cons.mp hmono).1
    have hbound' : ∀ q ∈ rest, 0 ≤ q.2.lower ∧ q.2.lower ≤ (fields.length : Int) :=
      fun q hq => hbound q (List.mem_cons_of_mem p hq)
    have hp := hbound p (List.mem_cons_self p rest)
    rw [mergeNotes_cons, ih fields hmono' hbound',
      spliceInsert_nonneg _ _ _ hp.1]
    have hk : p.2.lower.toNat ≤ fields.length := Int.toNat_le.mpr hp.2
    have hq : ∀ q ∈ rest.map (fun x => (x.1, x.2.lower.toNat)), p.2.lower.toNat ≤ q.2 := by
      intro q hqmem
      obtain ⟨x, hx, rfl⟩ := List.mem_map.mp hqmem
      exact Int.toNat_le_toNat (hhead x hx)
    rw [insertAllAt_split fields _ p.2.lower.toNat hq]
    have hlen : (fields.take p.2.lower.toNat).length = p.2.lower.toNat := by
      rw [List.length_take]
      omega
    rw [take_append_of_length _ _ _ hlen, drop_append_of_length _ _ _ hlen]
    simp only [List.map_cons, insertAllAt, List.map_map]

/-- C6 witness: the amended statement applied to fields `[0, 1]` and two
notes with non-decreasing resolved indices 0 and 2. -/
theorem c6_merge_amended_witness :
    mergeNotes [0, 1] [((5 : Nat), (⟨0, 0⟩ : NoteSort)), (6, ⟨2, 2⟩)]
      = insertAllAt [0, 1] [(5, 0), (6, 2)] := by
  have h := c6_merge_amended [0, 1] [((5 : Nat), (⟨0, 0⟩ : NoteSort)), (6, ⟨2, 2⟩)]
    (by decide) (by decide)
  simpa using h

/-- C5 witness: the amended statement applied to a concrete state with a
two-field cache. -/
theorem c5_cache_invalidation_witness :
    (convertCacheEffect ⟨some [⟨1, "A", 0, "a", false⟩, ⟨2, "B", 0, "b", false⟩], [], 5⟩).fields
      = none ∧
    (deleteCacheEffect ⟨some [⟨1, "A", 0, "a", false⟩, ⟨2, "B", 0, "b", false⟩], [], 5⟩ 1).fields
      = some (spliceRemoveOne [⟨1, "A", 0, "a", false⟩, ⟨2, "B", 0, "b", false⟩]
                (jsIndexOfById [⟨1, "A", 0, "a", false⟩, ⟨2, "B", 0, "b", false⟩] 1)) :=
  ⟨(c5_cache_invalidation _).1 _ rfl (by decide),
   (c5_cache_invalidation _).2.2.1 1 _ rfl⟩

/-- A successful cached-path `getFields` call stores exactly the list it
returns and leaves no pending orphans behind. -/
theorem getFieldsCachedPath_state (cached : List ZField) (s : SessState)
    (cmpOrphan : Nat → Nat → String) (s' : SessState) (out : List ZField)
    (h : getFieldsCachedPath cached s cmpOrphan = .ok (s', out)) :
    s'.fields = some out ∧ s'.orphans = [] := by
  unfold getFieldsCachedPath at h
  cases hr : reconcileOrphans cached s.orphans cmpOrphan with
  | error e => rw [hr] at h; exact Except.noConfusion h
  | ok cached' =>
    rw [hr] at h
    simp only [Except.ok.injEq, Prod.mk.injEq] at h
    obtain ⟨h1, h2⟩ := h
    subst h2
    rw [← h1]
    exact ⟨rfl, rfl⟩

/-- C7: calling `getFields` twice in a row (no structural mutation — and
no other session operation — in between) returns an identical ordered
sequence of field ids: the first successful call caches exactly what it
returned and clears the orphan list, so the second call takes the cached
path, reconciles nothing, and hands the same list back. -/
theorem c7_getFields_idempotent (doc : Doc) (cmpOrphan : Nat → Nat → String)
    (fuel : Nat) (s : SessState) {s1 s2 : SessState} {out1 out2 : List ZField}
    (h1 : getFields doc cmpOrphan fuel s = .ok (s1, out1))
    (h2 : getFields doc cmpOrphan fuel s1 = .ok (s2, out2)) :
    out1.map ZField.id = out2.map ZField.id := by
  have hstate : s1.fields = some out1 ∧ s1.orphans = [] := by
    unfold getFields at h1
    cases hsf : s.fields with
    | some cached =>
      rw [hsf] at h1
      exact getFieldsCachedPath_state _ _ _ _ _ h1
    | none =>
      rw [hsf] at h1
      cases hb : buildEntries doc fuel with
      | error e => rw [hb] at h1; exact Except.noConfusion h1
      | ok entries =>
        rw [hb] at h1
        exact getFieldsCachedPath_state _ _ _ _ _ h1
  unfold getFields at h2
  rw [hstate.1] at h2
  unfold getFieldsCachedPath at h2
  rw [hstate.2] at h2
  simp only [reconcileOrphans, reconcileGo, Except.ok.injEq, Prod.mk.injEq] at h2
  rw [h2.2]

/-- The document of the C7 witness: one inline Zotero field, no notes. -/
def docW : Doc :=
  ⟨[⟨"ADDIN ZOTERO_TEST", "t"⟩], [], [], fun _ _ => "Before", fun _ _ => "Before",
    fun _ => "Equal"⟩

/-- C7 witness: both calls succeed on `docW` from a fresh session state,
and the id sequences coincide. -/
theorem c7_getFields_idempotent_witness :
    getFields docW (fun _ _ => "Before") 2 ⟨none, [], 0⟩
      = .ok (⟨some [⟨0, "TEST", 0, "t", false⟩], [], 1⟩, [⟨0, "TEST", 0, "t", false⟩]) ∧
    List.map ZField.id [(⟨0, "TEST", 0, "t", false⟩ : ZField)]
      = List.map ZField.id [(⟨0, "TEST", 0, "t", false⟩ : ZField)] :=
  ⟨rfl, c7_getFields_idempotent docW (fun _ _ => "Before") 2 ⟨none, [], 0⟩ rfl rfl⟩

/-- A character list is an `isPrefixOf` of itself extended by anything. -/
theorem isPrefixOf_append_self : ∀ (l t : List Char), l.isPrefixOf (l ++ t) = true := by
  intro l t
  induction l with
  | nil => simp [List.isPrefixOf]
  | cons c cs ih => simp [List.isPrefixOf, ih]

/-- Every property written by the `setDocumentData` loop has a key of the
form `` `ZOTERO_PREF_${j}` `` with `j` between the starting counter and the
counter after the last chunk. -/
theorem chunks_mem : ∀ (fuel : Nat) (data : List Char) (i : Nat)
    (p : String × List Char), p ∈ setDocumentDataChunks fuel data i →
    ∃ j, i ≤ j ∧ j < i + (setDocumentDataChunks fuel data i).length ∧
      p.1 = PREF_PREFIX ++ "_" ++ Nat.repr j := by
  intro fuel
  induction fuel with
  | zero => intro data i p hp; simp [setDocumentDataChunks] at hp
  | succ n ih =>
    intro data i p hp
    cases hd : data.isEmpty with
    | true => simp [setDocumentDataChunks, hd] at hp
    | false =>
      simp only [setDocumentDataChunks, hd, Bool.false_eq_true, if_false] at hp ⊢
      rcases List.mem_cons.mp hp with hhead | htail
      · refine ⟨i, le_rfl, ?_, by rw [hhead]⟩
        simp only [List.length_cons]
        omega
      · obtain ⟨j, hj1, hj2, hj3⟩ := ih (data.drop PREF_LENGTH) (i + 1) p htail
        refine ⟨j, by omega, ?_, hj3⟩
        simp only [List.length_cons]
        omega

/-- The `setDocumentData` loop writes at most `n` properties when the
data is at most `PREF_LENGTH * n` characters long. -/
theorem chunks_length_le : ∀ (n fuel : Nat) (data : List Char) (i : Nat),
    data.length ≤ fuel → data.length ≤ PREF_LENGTH * n →
    (setDocumentDataChunks fuel data i).length ≤ n := by
  intro n
  induction n with
  | zero =>
    intro fuel data i _ hn
    have hz : data.length = 0 := by simpa [PREF_LENGTH] using hn
    have : data = [] := List.length_eq_zero.mp hz
    subst this
    cases fuel <;> simp [setDocumentDataChunks]
  | succ m ih =>
    intro fuel data i hf hn
    cases fuel with
    | zero => simp [setDocumentDataChunks]
    | succ k =>
      cases hd : data.isEmpty with
      | true => simp [setDocumentDataChunks, hd]
      | false =>
        have hne : data ≠ [] := by
          intro hcontra; subst hcontra; simp at hd
        have hlen1 : 1 ≤ data.length := by
          cases data with
          | nil => exact absurd rfl hne
          | cons c cs => simp
        simp only [setDocumentDataChunks, hd, Bool.false_eq_true, if_false,
          List.length_cons]
        have hP : PREF_LENGTH = 255 := rfl
        rw [hP] at hn
        have htail := ih k (data.drop PREF_LENGTH) (i + 1)
          (by rw [List.length_drop, hP]; omega)
          (by rw [List.length_drop, hP]; omega)
        omega

/-- JS string comparison orders the single-digit pref keys correctly. -/
theorem key_lexLt_of_lt (a b : Nat) (ha : 1 ≤ a) (hab : a < b) (hb : b ≤ 9) :
    lexLt (PREF_PREFIX ++ "_" ++ Nat.repr a).data (PREF_PREFIX ++ "_" ++ Nat.repr b).data
      = true := by
  have ha8 : a ≤ 8 := by omega
  interval_cases a <;> interval_cases b <;> decide

/-- With at most nine chunks, the written keys are strictly increasing in
JS string order. -/
theorem chunks_keys_pairwise : ∀ (fuel : Nat) (data : List Char) (i : Nat),
    1 ≤ i → i + (setDocumentDataChunks fuel data i).length ≤ 10 →
    List.Pairwise (fun p q : String × List Char => lexLt p.1.data q.1.data = true)
      (setDocumentDataChunks fuel data i) := by
  intro fuel
  induction fuel with
  | zero => intro data i _ _; simp [setDocumentDataChunks]
  | succ n ih =>
    intro data i hi htot
    cases hd : data.isEmpty with
    | true => simp [setDocumentDataChunks, hd]
    | false =>
      simp only [setDocumentDataChunks, hd, Bool.false_eq_true, if_false,
        List.length_cons] at htot ⊢
      refine List.Pairwise.cons ?_ (ih (data.drop PREF_LENGTH) (i + 1) (by omega) (by omega))
      intro q hq
      obtain ⟨j, hj1, hj2, hj3⟩ := chunks_mem n (data.drop PREF_LENGTH) (i + 1) q hq
      rw [hj3]
      exact key_lexLt_of_lt i j hi (by omega) (by omega)

/-- JS string order is asymmetric. -/
theorem lexLt_asymm : ∀ (a b : List Char), lexLt a b = true → lexLt b a = false := by
  intro a
  induction a with
  | nil =>
    intro b h
    cases b with
    | nil => simp [lexLt] at h
    | cons d ds => simp [lexLt]
  | cons c cs ih =>
    intro b h
    cases b with
    | nil => simp [lexLt] at h
    | cons d ds =>
      simp only [lexLt] at h ⊢
      by_cases h1 : c < d
      · rw [if_neg (lt_asymm h1), if_pos h1]
      · by_cases h2 : d < c
        · rw [if_neg h1, if_pos h2] at h
          exact absurd h (by simp)
        · rw [if_neg h1, if_neg h2] at h
          rw [if_neg h2, if_neg h1]
          exact ih ds h

/-- Stable insertion sort leaves a strictly increasing list unchanged. -/
theorem jsSortByKey_sorted_fix : ∀ l : List (String × List Char),
    List.Pairwise (fun p q => lexLt p.1.data q.1.data = true) l →
    jsSortByKey l = l := by
  intro l
  induction l with
  | nil => intro _; rfl
  | cons p t ih =>
    intro hp
    have hh := (List.pairwise_cons.mp hp).1
    have ht := (List.pairwise_cons.mp hp).2
    show sortInsertByKey p (jsSortByKey t) = p :: t
    rw [ih ht]
    cases t with
    | nil => rfl
    | cons q t' =>
      have hasym : lexLt q.1.data p.1.data = false :=
        lexLt_asymm _ _ (hh q (List.mem_cons_self q t'))
      simp [sortInsertByKey, hasym]

/-- Concatenating the chunk values in written order restores the data. -/
theorem chunks_join : ∀ (fuel : Nat) (data : List Char) (i : Nat),
    data.length ≤ fuel →
    ((setDocumentDataChunks fuel data i).map Prod.snd).flatten = data := by
  intro fuel
  induction fuel with
  | zero =>
    intro data i h
    have : data = [] := List.length_eq_zero.mp (by omega)
    subst this
    rfl
  | succ n ih =>
    intro data i h
    cases hd : data.isEmpty with
    | true =>
      have : data = [] := by simpa using hd
      subst this
      simp [setDocumentDataChunks]
    | false =>
      simp only [setDocumentDataChunks, hd, Bool.false_eq_true, if_false,
        List.map_cons, List.flatten_cons]
      rw [ih (data.drop PREF_LENGTH) (i + 1)
        (by rw [List.length_drop, show PREF_LENGTH = 255 from rfl]; omega)]
      exact List.take_append_drop _ _

/-- Every chunk key carries the `ZOTERO_PREF` marker, so the
`getDocumentData` filter keeps all of them. -/
theorem chunks_filter_all (fuel : Nat) (data : List Char) (i : Nat) :
    (setDocumentDataChunks fuel data i).filter (fun p => jsStartsWith p.1 PREF_PREFIX)
      = setDocumentDataChunks fuel data i := by
  rw [List.filter_eq_self]
  intro p hp
  obtain ⟨j, _, _, hj⟩ := chunks_mem fuel data i p hp
  rw [hj]
  unfold jsStartsWith
  rw [String.data_append, String.data_append, List.append_assoc]
  exact isPrefixOf_append_self _ _

/-- C10: for data of at most `9 * PREF_LENGTH` characters, on a document
whose first text range does not start with the export marker and with no
pre-existing `ZOTERO_PREF`-keyed custom properties,
`getDocumentData ∘ setDocumentData` is the identity: the writer splits
the data into consecutively numbered 255-character properties
`ZOTERO_PREF_1 … ZOTERO_PREF_k` (`k ≤ 9`), and the reader filters,
sorts those keys (single-digit suffixes sort correctly in JS string
order) and concatenates the values. -/
theorem c10_document_data_roundtrip (d : DocProps) (data : List Char)
    (hlen : data.length ≤ 9 * PREF_LENGTH)
    (hmarker : (match d.firstTextRange with
      | some t => EXPORT_DOCUMENT_MARKER.data.isPrefixOf t
      | none => false) = false)
    (hprops : ∀ p ∈ d.props, jsStartsWith p.1 PREF_PREFIX = false) :
    getDocumentData (setDocumentData d data) = data := by
  have hfilter : (d.props ++ setDocumentDataChunks data.length data 1).filter
      (fun p => jsStartsWith p.1 PREF_PREFIX) = setDocumentDataChunks data.length data 1 := by
    rw [List.filter_append, chunks_filter_all,
      List.filter_eq_nil_iff.mpr (by intro p hp; simp [hprops p hp]), List.nil_append]
  have h9 : (setDocumentDataChunks data.length data 1).length ≤ 9 :=
    chunks_length_le 9 data.length data 1 le_rfl (by rw [Nat.mul_comm] at hlen; exact hlen)
  have hsorted : jsSortByKey (setDocumentDataChunks data.length data 1)
      = setDocumentDataChunks data.length data 1 :=
    jsSortByKey_sorted_fix _ (chunks_keys_pairwise data.length data 1 le_rfl (by omega))
  have hjoin := chunks_join data.length data 1 le_rfl
  cases hft : d.firstTextRange with
  | some t =>
    rw [hft] at hmarker
    have hm : EXPORT_DOCUMENT_MARKER.data.isPrefixOf t = false := hmarker
    simp only [getDocumentData, setDocumentData, hft, hm, Bool.false_eq_true,
      if_false]
    rw [hfilter, hsorted, hjoin]
  | none =>
    simp only [getDocumentData, setDocumentData, hft]
    rw [hfilter, hsorted, hjoin]

/-- Document surface for the C10 witness. -/
def docProps0 : DocProps := ⟨some "Hello".data, [("Other", ['x'])]⟩

/-- C10 witness: the roundtrip applied to the data `"hi"` on a document
with one unrelated property and a non-marker first range. -/
theorem c10_document_data_roundtrip_witness :
    getDocumentData (setDocumentData docProps0 ['h', 'i']) = ['h', 'i'] :=
  c10_document_data_roundtrip docProps0 ['h', 'i'] (by decide) (by decide) (by decide)

end WordSession
